import Mathlib

/-
  Verification of the bitset/relational audit subsystem.

  Shallow embedding of:
  - src/gui/backend/app/schema_meta.py        (codec encode, schema bit-profile)
  - src/gui/backend/app/redis_bits.py         (codec decode, element keys)
  - src/gui/backend/app/northwind_data_bits.py (row bit-profile, predicate compiler)
  - src/gui/backend/app/northwind_data.py     (scan-and-filter evaluator, data reset)
  - src/gui/backend/app/northwind_compare.py  (rounding, order totals, schema reset)

  Python `bytearray(512)` is modelled as `List Nat` of length 512 (byte values);
  Python arbitrary-precision `int` as `Int` (masks, stored values) or `Nat`
  (bit indices, bytes); Python `Decimal` as `ℚ` (exact decimal arithmetic);
  raising `ApiError` as `Except String`.
-/

-- ### Bit-Vector Codec: schema_meta.encode_flags_bin (lines 64-72)

/-- One iteration of the encode loop (schema_meta.py lines 69-71):
`byte_from_end = b // 8; i = 511 - byte_from_end; buf[i] |= 1 << (b % 8)`. -/
def encStep (buf : List Nat) (n : Nat) : List Nat :=
  let i := 511 - n / 8
  buf.set i (buf.getD i 0 ||| (1 <<< (n % 8)))

/-- schema_meta.encode_flags_bin: builds a 512-byte buffer from bit indices,
raising INVALID_BIT for any index outside [0,4095] (`b < 0 or b > 4095`). -/
def encode_flags_bin (bits : List Int) : Except String (List Nat) :=
  List.foldlM
    (fun buf b =>
      if b < 0 ∨ 4095 < b then Except.error "INVALID_BIT"
      else Except.ok (encStep buf b.toNat))
    (List.replicate 512 0) bits

/-- The pure fold that `encode_flags_bin` performs when every bit is valid. -/
def encFold (bits : List Int) (buf : List Nat) : List Nat :=
  bits.foldl (fun bf b => encStep bf b.toNat) buf

-- ### Bit-Vector Codec: redis_bits.decode_flags_bin (lines 6-24)

/-- The inner loop of decode_flags_bin (redis_bits.py lines 21-23): collect
`base + b` for every set bit `b` of the byte (`byte & (1 << b)`). -/
def decodeByte (base byte : Nat) : List Nat :=
  (List.range 8).filterMap fun b =>
    if byte &&& (1 <<< b) ≠ 0 then some (base + b) else none

/-- redis_bits.decode_flags_bin: requires a 512-byte buffer (else INVALID_FLAGS),
then walks bytes from index 511 down to 0 with `base = (511 - i) * 8`,
skipping zero bytes. -/
def decode_flags_bin (flags_bin : List Nat) : Except String (List Nat) :=
  if flags_bin.length ≠ 512 then Except.error "INVALID_FLAGS"
  else Except.ok <|
    (List.range 512).reverse.flatMap fun i =>
      if flags_bin.getD i 0 = 0 then [] else decodeByte ((511 - i) * 8) (flags_bin.getD i 0)

-- ### Codec lemmas

/-- Reading bit `x` of the buffer at the byte/bit position the codec uses. -/
def bufBit (buf : List Nat) (x : Nat) : Bool :=
  (buf.getD (511 - x / 8) 0).testBit (x % 8)

theorem getD_set_eq_if (l : List α) (i j : Nat) (v d : α) :
    (l.set i v).getD j d = if i = j ∧ j < l.length then v else l.getD j d := by
  rw [List.getD_eq_getElem?_getD, List.getD_eq_getElem?_getD, List.getElem?_set]
  by_cases hij : i = j
  · subst hij
    by_cases hlen : i < l.length
    · simp [hlen]
    · rw [if_pos rfl, if_neg hlen, if_neg (fun h => hlen h.2),
        List.getElem?_eq_none (by omega)]
  · rw [if_neg hij, if_neg (fun h => hij h.1)]

theorem encStep_length (buf : List Nat) (n : Nat) : (encStep buf n).length = buf.length := by
  simp [encStep]

theorem bufBit_encStep (buf : List Nat) (hlen : buf.length = 512)
    {n x : Nat} (hn : n ≤ 4095) (hx : x ≤ 4095) :
    bufBit (encStep buf n) x = (bufBit buf x || decide (n = x)) := by
  have hn8 : n / 8 ≤ 511 := by
    have h := Nat.div_le_div_right (c := 8) hn
    omega
  have hx8 : x / 8 ≤ 511 := by
    have h := Nat.div_le_div_right (c := 8) hx
    omega
  have hnm : n % 8 < 8 := Nat.mod_lt _ (by omega)
  have hxm : x % 8 < 8 := Nat.mod_lt _ (by omega)
  have hdn := Nat.div_add_mod n 8
  have hdx := Nat.div_add_mod x 8
  unfold bufBit encStep
  rw [getD_set_eq_if]
  by_cases hij : 511 - n / 8 = 511 - x / 8
  · have hdiv : n / 8 = x / 8 := by omega
    have hcond : 511 - n / 8 = 511 - x / 8 ∧ 511 - x / 8 < buf.length := by
      constructor
      · exact hij
      · omega
    rw [if_pos hcond, hdiv, Nat.testBit_or]
    by_cases hmod : n % 8 = x % 8
    · have hnx : n = x := by omega
      subst hnx
      have : (1 <<< (n % 8)).testBit (n % 8) = true := by
        rw [Nat.shiftLeft_eq, one_mul]
        exact Nat.testBit_two_pow_self
      simp [this]
    · have hnx : ¬ n = x := by omega
      have : (1 <<< (n % 8)).testBit (x % 8) = false := by
        rw [Nat.shiftLeft_eq, one_mul]
        exact Nat.testBit_two_pow_of_ne hmod
      simp [this, hnx]
  · have hnx : ¬ n = x := by
      intro h; exact hij (by rw [h])
    have hcond : ¬ (511 - n / 8 = 511 - x / 8 ∧ 511 - x / 8 < buf.length) := by
      intro h; exact hij h.1
    rw [if_neg hcond]
    simp [hnx]

theorem encFold_length (bits : List Int) (buf : List Nat) :
    (encFold bits buf).length = buf.length := by
  induction bits generalizing buf with
  | nil => rfl
  | cons b rest ih =>
    simp only [encFold, List.foldl_cons] at *
    rw [ih, encStep_length]

theorem bufBit_encFold (bits : List Int) (buf : List Nat) (hlen : buf.length = 512)
    (hv : ∀ b ∈ bits, 0 ≤ b ∧ b ≤ 4095) {x : Nat} (hx : x ≤ 4095) :
    bufBit (encFold bits buf) x = (bufBit buf x || bits.any (fun b => b == (x : Int))) := by
  induction bits generalizing buf with
  | nil => simp [encFold]
  | cons b rest ih =>
    have hb := hv b (List.mem_cons_self _ _)
    have hrest : ∀ c ∈ rest, 0 ≤ c ∧ c ≤ 4095 := fun c hc => hv c (List.mem_cons_of_mem _ hc)
    have hbn : b.toNat ≤ 4095 := by omega
    have hstep : bufBit (encStep buf b.toNat) x = (bufBit buf x || decide (b.toNat = x)) :=
      bufBit_encStep buf hlen hbn hx
    have hlen' : (encStep buf b.toNat).length = 512 := by rw [encStep_length]; exact hlen
    have : encFold (b :: rest) buf = encFold rest (encStep buf b.toNat) := by
      simp [encFold]
    rw [this, ih (encStep buf b.toNat) hlen' hrest, hstep]
    have hbeq : (b == (x : Int)) = decide (b.toNat = x) := by
      by_cases h : b = (x : Int)
      · subst h
        simp [Int.toNat_of_nonneg hb.1]
      · have : ¬ b.toNat = x := by omega
        simp [h, this]
    simp only [List.any_cons]
    rw [hbeq, Bool.or_assoc]

theorem bufBit_replicate (x : Nat) : bufBit (List.replicate 512 0) x = false := by
  unfold bufBit
  rw [List.getD_eq_getElem?_getD, List.getElem?_replicate]
  by_cases h : 511 - x / 8 < 512 <;> simp [h]

theorem encode_ok_of_valid (bits : List Int) (buf : List Nat)
    (hv : ∀ b ∈ bits, 0 ≤ b ∧ b ≤ 4095) :
    List.foldlM
      (fun buf b =>
        if b < 0 ∨ 4095 < b then Except.error "INVALID_BIT"
        else Except.ok (encStep buf b.toNat))
      buf bits = Except.ok (encFold bits buf) := by
  induction bits generalizing buf with
  | nil => rfl
  | cons b rest ih =>
    have hb := hv b (List.mem_cons_self _ _)
    have hrest : ∀ c ∈ rest, 0 ≤ c ∧ c ≤ 4095 := fun c hc => hv c (List.mem_cons_of_mem _ hc)
    have hcond : ¬ (b < 0 ∨ 4095 < b) := by omega
    rw [List.foldlM_cons, if_neg hcond]
    show List.foldlM _ (encStep buf b.toNat) rest = _
    rw [ih _ hrest]
    rfl

theorem encode_error_of_invalid (bits : List Int) (buf : List Nat)
    (hv : ∃ b ∈ bits, b < 0 ∨ 4095 < b) :
    ∃ e, List.foldlM
      (fun buf b =>
        if b < 0 ∨ 4095 < b then Except.error "INVALID_BIT"
        else Except.ok (encStep buf b.toNat))
      buf bits = Except.error e := by
  induction bits generalizing buf with
  | nil => simp at hv
  | cons b rest ih =>
    rw [List.foldlM_cons]
    by_cases hb : b < 0 ∨ 4095 < b
    · exact ⟨"INVALID_BIT", by rw [if_pos hb]; rfl⟩
    · have hrest : ∃ c ∈ rest, c < 0 ∨ 4095 < c := by
        rcases hv with ⟨c, hc, hcr⟩
        rcases List.mem_cons.mp hc with h | h
        · exact absurd (h ▸ hcr) hb
        · exact ⟨c, h, hcr⟩
      rw [if_neg hb]
      rcases ih (encStep buf b.toNat) hrest with ⟨e, he⟩
      exact ⟨e, by rw [← he]; rfl⟩

theorem mem_decodeByte {base byte x : Nat} :
    x ∈ decodeByte base byte ↔ ∃ b, b < 8 ∧ byte.testBit b = true ∧ x = base + b := by
  simp only [decodeByte, List.mem_filterMap, List.mem_range]
  constructor
  · rintro ⟨b, hb, hx⟩
    by_cases hbit : byte &&& (1 <<< b) ≠ 0
    · rw [if_pos hbit] at hx
      injection hx with hx
      refine ⟨b, hb, ?_, hx.symm⟩
      rw [Nat.shiftLeft_eq, one_mul, Nat.and_two_pow] at hbit
      cases hh : byte.testBit b
      · exfalso
        rw [hh] at hbit
        simp at hbit
      · rfl
    · rw [if_neg hbit] at hx
      cases hx
  · rintro ⟨b, hb, hbit, hx⟩
    refine ⟨b, hb, ?_⟩
    have hne : byte &&& (1 <<< b) ≠ 0 := by
      rw [Nat.shiftLeft_eq, one_mul, Nat.and_two_pow, hbit]
      simp only [Bool.toNat_true, one_mul]
      exact (Nat.pos_pow_of_pos b (by omega)).ne'
    rw [if_pos hne, hx]

theorem mem_decodeList {buf : List Nat} {x : Nat} :
    (x ∈ (List.range 512).reverse.flatMap fun i =>
        if buf.getD i 0 = 0 then [] else decodeByte ((511 - i) * 8) (buf.getD i 0)) ↔
      (x ≤ 4095 ∧ bufBit buf x = true) := by
  simp only [List.mem_flatMap, List.mem_reverse, List.mem_range]
  constructor
  · rintro ⟨i, hi, hx⟩
    by_cases hz : buf.getD i 0 = 0
    · rw [if_pos hz] at hx
      cases hx
    · rw [if_neg hz] at hx
      rcases mem_decodeByte.mp hx with ⟨b, hb, hbit, hxe⟩
      have hx4095 : x ≤ 4095 := by omega
      refine ⟨hx4095, ?_⟩
      have hdiv : x / 8 = 511 - i := by omega
      have hmod : x % 8 = b := by omega
      unfold bufBit
      rw [hdiv, hmod]
      have : 511 - (511 - i) = i := by omega
      rw [this]
      exact hbit
  · rintro ⟨hx4095, hbit⟩
    have hx8 : x / 8 ≤ 511 := by
      have h := Nat.div_le_div_right (c := 8) hx4095
      omega
    refine ⟨511 - x / 8, by omega, ?_⟩
    unfold bufBit at hbit
    have hz : buf.getD (511 - x / 8) 0 ≠ 0 := by
      intro h
      rw [h] at hbit
      simp [Nat.zero_testBit] at hbit
    rw [if_neg hz]
    refine mem_decodeByte.mpr ⟨x % 8, Nat.mod_lt _ (by omega), hbit, ?_⟩
    have := Nat.div_add_mod x 8
    omega

/-- C4: for every set S of bit indices within [0,4095], encoding succeeds,
the buffer is exactly 512 bytes, bit i lands at byte index 511 - (i div 8) and
bit position i mod 8, and decoding the encoding returns exactly the members of S. -/
theorem C4_codec_round_trip (S : List Int) (hS : ∀ b ∈ S, 0 ≤ b ∧ b ≤ 4095) :
    ∃ buf decoded,
      encode_flags_bin S = Except.ok buf ∧
      buf.length = 512 ∧
      decode_flags_bin buf = Except.ok decoded ∧
      (∀ x : Nat, x ∈ decoded ↔ (x : Int) ∈ S) ∧
      (∀ b ∈ S, (buf.getD (511 - b.toNat / 8) 0).testBit (b.toNat % 8) = true) := by
  have hok : encode_flags_bin S = Except.ok (encFold S (List.replicate 512 0)) :=
    encode_ok_of_valid S _ hS
  set buf := encFold S (List.replicate 512 0) with hbuf
  have hlen : buf.length = 512 := by
    rw [hbuf, encFold_length, List.length_replicate]
  have hbits : ∀ x : Nat, x ≤ 4095 →
      bufBit buf x = S.any (fun b => b == (x : Int)) := by
    intro x hx
    rw [hbuf, bufBit_encFold S (List.replicate 512 0) (by rw [List.length_replicate]) hS hx,
      bufBit_replicate, Bool.false_or]
  refine ⟨buf, (List.range 512).reverse.flatMap fun i =>
      if buf.getD i 0 = 0 then [] else decodeByte ((511 - i) * 8) (buf.getD i 0),
    hok, hlen, ?_, ?_, ?_⟩
  · unfold decode_flags_bin
    rw [if_neg (by omega)]
  · intro x
    rw [mem_decodeList]
    constructor
    · rintro ⟨hx, hbit⟩
      have := hbits x hx
      rw [this] at hbit
      rcases List.any_eq_true.mp hbit with ⟨b, hb, hbe⟩
      have hbx : b = (x : Int) := beq_iff_eq.mp hbe
      rw [← hbx]
      exact hb
    · intro hx
      have hb := hS _ hx
      have hx4095 : x ≤ 4095 := by omega
      refine ⟨hx4095, ?_⟩
      rw [hbits x hx4095]
      exact List.any_eq_true.mpr ⟨(x : Int), hx, by simp⟩
  · intro b hb
    have hbv := hS b hb
    have hbn : b.toNat ≤ 4095 := by omega
    have : bufBit buf b.toNat = true := by
      rw [hbits b.toNat hbn]
      refine List.any_eq_true.mpr ⟨b, hb, ?_⟩
      have : (b.toNat : Int) = b := Int.toNat_of_nonneg hbv.1
      rw [this]
      simp
    exact this

/-- C4 witness at S = [0, 13, 4095]. -/
theorem C4_codec_round_trip_witness :
    ∃ buf decoded,
      encode_flags_bin [0, 13, 4095] = Except.ok buf ∧
      buf.length = 512 ∧
      decode_flags_bin buf = Except.ok decoded ∧
      (∀ x : Nat, x ∈ decoded ↔ (x : Int) ∈ [(0 : Int), 13, 4095]) ∧
      (∀ b ∈ [(0 : Int), 13, 4095],
        (buf.getD (511 - b.toNat / 8) 0).testBit (b.toNat % 8) = true) :=
  C4_codec_round_trip [0, 13, 4095] (by decide)

/-- C9: encoding fails (INVALID_BIT) iff some bit index is outside [0,4095],
succeeds iff all are in range (never clamped); decoding succeeds iff the buffer
is exactly 512 bytes and fails (INVALID_FLAGS) otherwise (never partially decoded). -/
theorem C9_codec_error_contract :
    (∀ bits : List Int,
      (∃ out, encode_flags_bin bits = Except.ok out) ↔ ∀ b ∈ bits, 0 ≤ b ∧ b ≤ 4095) ∧
    (∀ bits : List Int,
      (∃ e, encode_flags_bin bits = Except.error e) ↔ ∃ b ∈ bits, b < 0 ∨ 4095 < b) ∧
    (∀ buf : List Nat,
      (∃ out, decode_flags_bin buf = Except.ok out) ↔ buf.length = 512) ∧
    (∀ buf : List Nat,
      (∃ e, decode_flags_bin buf = Except.error e) ↔ buf.length ≠ 512) := by
  have henc : ∀ bits : List Int,
      (∃ out, encode_flags_bin bits = Except.ok out) ↔ ∀ b ∈ bits, 0 ≤ b ∧ b ≤ 4095 := by
    intro bits
    constructor
    · rintro ⟨out, hout⟩
      by_contra hbad
      push_neg at hbad
      rcases hbad with ⟨b, hbmem, hbr⟩
      have : ∃ b ∈ bits, b < 0 ∨ 4095 < b := ⟨b, hbmem, by omega⟩
      rcases encode_error_of_invalid bits (List.replicate 512 0) this with ⟨e, he⟩
      have he' : encode_flags_bin bits = Except.error e := he
      rw [hout] at he'
      cases he'
    · intro hv
      exact ⟨encFold bits (List.replicate 512 0), encode_ok_of_valid bits _ hv⟩
  refine ⟨henc, ?_, ?_, ?_⟩
  · intro bits
    constructor
    · rintro ⟨e, he⟩
      by_contra hgood
      push_neg at hgood
      have hv : ∀ b ∈ bits, 0 ≤ b ∧ b ≤ 4095 := by
        intro b hb
        have := hgood b hb
        omega
      have hok : encode_flags_bin bits = Except.ok (encFold bits (List.replicate 512 0)) :=
        encode_ok_of_valid bits (List.replicate 512 0) hv
      rw [hok] at he
      cases he
    · intro hbad
      exact encode_error_of_invalid bits (List.replicate 512 0) hbad
  · intro buf
    constructor
    · rintro ⟨out, hout⟩
      by_contra hlen
      unfold decode_flags_bin at hout
      rw [if_pos hlen] at hout
      cases hout
    · intro hlen
      refine ⟨(List.range 512).reverse.flatMap fun i =>
          if buf.getD i 0 = 0 then [] else decodeByte ((511 - i) * 8) (buf.getD i 0), ?_⟩
      unfold decode_flags_bin
      rw [if_neg (by omega)]
  · intro buf
    constructor
    · rintro ⟨e, he⟩
      intro hlen
      unfold decode_flags_bin at he
      rw [if_neg (by omega)] at he
      cases he
    · intro hlen
      refine ⟨"INVALID_FLAGS", ?_⟩
      unfold decode_flags_bin
      rw [if_pos hlen]

-- ### String helpers modelling Python str methods (ASCII whitespace)

/-- Whitespace test modelling Python `str.strip`/`str.split` (ASCII subset). -/
def isWs (c : Char) : Bool :=
  c == ' ' || c == '\t' || c == '\n' || c == '\x0d' || c == '\x0b' || c == '\x0c'

/-- Python `str.strip()`. -/
def trimWs (s : String) : String :=
  String.mk (((s.data.dropWhile isWs).reverse.dropWhile isWs).reverse)

/-- Python `str.upper()` (ASCII behaviour). -/
def upperStr (s : String) : String :=
  String.mk (s.data.map Char.toUpper)

/-- Helper for Python `str.split()` with no separator: accumulate the current
word (reversed) and split on whitespace runs, dropping empty pieces. -/
def wordsGo : List Char → List Char → List String
  | [], cur => if cur.isEmpty then [] else [String.mk cur.reverse]
  | c :: rest, cur =>
    if isWs c then
      if cur.isEmpty then wordsGo rest [] else String.mk cur.reverse :: wordsGo rest []
    else wordsGo rest (c :: cur)

/-- Python `" ".join(words)`. -/
def joinSp : List String → String
  | [] => ""
  | [w] => w
  | w :: ws => w ++ " " ++ joinSp ws

/-- Python `x in t` substring test. -/
def infixOfList (x : List Char) : List Char → Bool
  | [] => x.isEmpty
  | c :: rest => x.isPrefixOf (c :: rest) || infixOfList x rest

/-- Python `x in t` on strings. -/
def containsSub (t x : String) : Bool := infixOfList x.data t.data

/-- Python `s.strip(":")`. -/
def stripColons (s : String) : String :=
  String.mk (((s.data.dropWhile (· == ':')).reverse.dropWhile (· == ':')).reverse)

-- ### Schema Bit-Profile: schema_meta.py constants (lines 17-61)

def BIT_IS_FK_REL : Nat := 5
def BIT_REL_META : Nat := 19
def BIT_TYPE_TEXT : Nat := 256
def BIT_TYPE_INTEGER : Nat := 257
def BIT_TYPE_REAL : Nat := 258
def BIT_TYPE_NUMERIC : Nat := 259
def BIT_TYPE_DATETIME : Nat := 260
def BIT_TYPE_BLOB : Nat := 261
def BIT_RELATION : Nat := 1024
def BIT_CARD_1_1 : Nat := 1030
def BIT_CARD_1_N : Nat := 1031
def BIT_CHILD_MANDATORY : Nat := 1040
def BIT_CHILD_OPTIONAL : Nat := 1041
def BIT_DEL_CASCADE : Nat := 1050
def BIT_DEL_SET_NULL : Nat := 1051
def BIT_DEL_RESTRICT : Nat := 1052
def BIT_UPD_CASCADE : Nat := 1053
def BIT_UPD_SET_NULL : Nat := 1054
def BIT_UPD_RESTRICT : Nat := 1055

/-- schema_meta._normalize_declared_type:
`" ".join((declared_type or "").strip().upper().split())`. -/
def _normalize_declared_type (declared_type : String) : String :=
  joinSp (wordsGo (upperStr (trimWs declared_type)).data [])

/-- Digits of a parenthesized length to a number (models `int(...)` on digits). -/
def digitsToNat (l : List Char) : Nat :=
  l.foldl (fun a c => a * 10 + (c.toNat - 48)) 0

/-- One attempted match of the regex `\((\s*\d+\s*)\)` right after a `(`. -/
def parseLenAt (l : List Char) : Option Nat :=
  let l1 := l.dropWhile isWs
  let digits := l1.takeWhile Char.isDigit
  let l2 := (l1.dropWhile Char.isDigit).dropWhile isWs
  if digits.isEmpty then none
  else match l2 with
    | ')' :: _ => some (digitsToNat digits)
    | _ => none

/-- Leftmost match of `_LEN_RE = \((\s*\d+\s*)\)` (schema_meta.py line 94). -/
def findLen : List Char → Option Nat
  | [] => none
  | c :: rest =>
    if c = '(' then
      match parseLenAt rest with
      | some n => some n
      | none => findLen rest
    else findLen rest

/-- schema_meta.sqlite_type_family_bits (lines 101-123): normalized substring
classification in source order, paired with the parsed parenthesized length. -/
def sqlite_type_family_bits (declared_type : String) : Option Nat × Option Nat :=
  let t := _normalize_declared_type declared_type
  let length := findLen t.data
  if containsSub t "INT" then (some BIT_TYPE_INTEGER, length)
  else if containsSub t "CHAR" || containsSub t "CLOB" || containsSub t "TEXT"
      || containsSub t "VARCHAR" then (some BIT_TYPE_TEXT, length)
  else if containsSub t "REAL" || containsSub t "FLOA" || containsSub t "DOUB" then
    (some BIT_TYPE_REAL, length)
  else if containsSub t "DATE" || containsSub t "TIME" then (some BIT_TYPE_DATETIME, length)
  else if containsSub t "BLOB" then (some BIT_TYPE_BLOB, length)
  else if containsSub t "NUMERIC" || containsSub t "DECIMAL" || containsSub t "BOOLEAN" then
    (some BIT_TYPE_NUMERIC, length)
  else (none, length)

/-- Type-family classification as worded by the specification sentence for C8:
normalize, then test substrings in the stated priority order. -/
def specTypeFamilyBit (declared_type : String) : Option Nat :=
  let t := _normalize_declared_type declared_type
  if containsSub t "INT" then some BIT_TYPE_INTEGER
  else if containsSub t "CHAR" || containsSub t "CLOB" || containsSub t "TEXT"
      || containsSub t "VARCHAR" then some BIT_TYPE_TEXT
  else if containsSub t "REAL" || containsSub t "FLOA" || containsSub t "DOUB" then
    some BIT_TYPE_REAL
  else if containsSub t "DATE" || containsSub t "TIME" then some BIT_TYPE_DATETIME
  else if containsSub t "BLOB" then some BIT_TYPE_BLOB
  else if containsSub t "NUMERIC" || containsSub t "DECIMAL" || containsSub t "BOOLEAN" then
    some BIT_TYPE_NUMERIC
  else none

/-- schema_meta._is_restrict (lines 181-183): `not a or a in ("RESTRICT",
"NO ACTION", "SET DEFAULT")` after strip/upper. -/
def _is_restrict (action : String) : Bool :=
  let a := upperStr (trimWs action)
  a == "" || a == "RESTRICT" || a == "NO ACTION" || a == "SET DEFAULT"

/-- schema_meta.bits_for_relation (lines 186-213). -/
def bits_for_relation (is_unique_child child_mandatory : Bool)
    (on_delete on_update : String) : Finset Nat :=
  let bits : Finset Nat := {BIT_IS_FK_REL, BIT_REL_META, BIT_RELATION}
  let bits := insert (if is_unique_child then BIT_CARD_1_1 else BIT_CARD_1_N) bits
  let bits := insert (if child_mandatory then BIT_CHILD_MANDATORY else BIT_CHILD_OPTIONAL) bits
  let od := upperStr (trimWs on_delete)
  let bits :=
    if od = "CASCADE" then insert BIT_DEL_CASCADE bits
    else if od = "SET NULL" then insert BIT_DEL_SET_NULL bits
    else if _is_restrict od then insert BIT_DEL_RESTRICT bits
    else bits
  let ou := upperStr (trimWs on_update)
  let bits :=
    if ou = "CASCADE" then insert BIT_UPD_CASCADE bits
    else if ou = "SET NULL" then insert BIT_UPD_SET_NULL bits
    else if _is_restrict ou then insert BIT_UPD_RESTRICT bits
    else bits
  bits

/-- C8: the declared-type family is decided on the normalized string by
substring tests in exactly the spec's priority order (INT; then CHAR/CLOB/
TEXT/VARCHAR; then REAL/FLOA/DOUB; then DATE/TIME; then BLOB; then NUMERIC/
DECIMAL/BOOLEAN; else no family bit), as instanced on mixed-case, padded and
priority-overlapping inputs. -/
theorem C8_type_family_priority :
    (∀ s : String, (sqlite_type_family_bits s).1 = specTypeFamilyBit s) ∧
    (sqlite_type_family_bits "  nvarchar (60) ").1 = some BIT_TYPE_TEXT ∧
    (sqlite_type_family_bits "charint").1 = some BIT_TYPE_INTEGER ∧
    (sqlite_type_family_bits "double precision").1 = some BIT_TYPE_REAL ∧
    (sqlite_type_family_bits "Datetime").1 = some BIT_TYPE_DATETIME ∧
    (sqlite_type_family_bits "blob").1 = some BIT_TYPE_BLOB ∧
    (sqlite_type_family_bits "Boolean").1 = some BIT_TYPE_NUMERIC ∧
    (sqlite_type_family_bits "JSON").1 = none := by
  refine ⟨?_, by decide, by decide, by decide, by decide, by decide, by decide, by decide⟩
  intro s
  simp only [sqlite_type_family_bits, specTypeFamilyBit]
  split_ifs <;> rfl

/-- C7 counterexample: the unrecognized action string "XYZ" is not bucketed to
RESTRICT; the relation encoding then carries zero on-delete action bits,
refuting the claim that every action receives exactly one action bit. -/
theorem C7_counterexample :
    (({BIT_DEL_CASCADE, BIT_DEL_SET_NULL, BIT_DEL_RESTRICT} : Finset Nat) ∩
        bits_for_relation true true "XYZ" "CASCADE").card = 0 := by decide

/-- Intersection of the update-action branch with the delete-action bits is
unaffected by whichever update bit is inserted. -/
theorem ouIf_inter_del (p q r : Prop) [Decidable p] [Decidable q] [Decidable r]
    (s : Finset Nat) :
    ((if p then insert BIT_UPD_CASCADE s
      else if q then insert BIT_UPD_SET_NULL s
      else if r then insert BIT_UPD_RESTRICT s
      else s) ∩
        ({BIT_DEL_CASCADE, BIT_DEL_SET_NULL, BIT_DEL_RESTRICT} : Finset Nat))
      = s ∩ {BIT_DEL_CASCADE, BIT_DEL_SET_NULL, BIT_DEL_RESTRICT} := by
  split_ifs <;> first | rfl | rw [Finset.insert_inter_of_not_mem (by decide)]

theorem odIf_inter_upd (p q r : Prop) [Decidable p] [Decidable q] [Decidable r]
    (s : Finset Nat) :
    ((if p then insert BIT_DEL_CASCADE s
      else if q then insert BIT_DEL_SET_NULL s
      else if r then insert BIT_DEL_RESTRICT s
      else s) ∩
        ({BIT_UPD_CASCADE, BIT_UPD_SET_NULL, BIT_UPD_RESTRICT} : Finset Nat))
      = s ∩ {BIT_UPD_CASCADE, BIT_UPD_SET_NULL, BIT_UPD_RESTRICT} := by
  split_ifs <;> first | rfl | rw [Finset.insert_inter_of_not_mem (by decide)]

theorem delIf_inter_card {p q r : Prop} [Decidable p] [Decidable q] [Decidable r]
    {s : Finset Nat}
    (hs : s ∩ ({BIT_DEL_CASCADE, BIT_DEL_SET_NULL, BIT_DEL_RESTRICT} : Finset Nat) = ∅) :
    ((if p then insert BIT_DEL_CASCADE s
      else if q then insert BIT_DEL_SET_NULL s
      else if r then insert BIT_DEL_RESTRICT s
      else s) ∩
        ({BIT_DEL_CASCADE, BIT_DEL_SET_NULL, BIT_DEL_RESTRICT} : Finset Nat)).card
      = if p ∨ q ∨ r then 1 else 0 := by
  split_ifs <;>
    first
      | tauto
      | (rw [Finset.insert_inter_of_mem (by decide), hs]; rfl)
      | (rw [hs]; rfl)

theorem ouIf_inter_card {p q r : Prop} [Decidable p] [Decidable q] [Decidable r]
    {s : Finset Nat}
    (hs : s ∩ ({BIT_UPD_CASCADE, BIT_UPD_SET_NULL, BIT_UPD_RESTRICT} : Finset Nat) = ∅) :
    ((if p then insert BIT_UPD_CASCADE s
      else if q then insert BIT_UPD_SET_NULL s
      else if r then insert BIT_UPD_RESTRICT s
      else s) ∩
        ({BIT_UPD_CASCADE, BIT_UPD_SET_NULL, BIT_UPD_RESTRICT} : Finset Nat)).card
      = if p ∨ q ∨ r then 1 else 0 := by
  split_ifs <;>
    first
      | tauto
      | (rw [Finset.insert_inter_of_mem (by decide), hs]; rfl)
      | (rw [hs]; rfl)

/-- C7 (amended): a relation encoding carries exactly one on-delete action bit
iff the normalized on-delete action is CASCADE, SET NULL, or restrict-like
(empty, RESTRICT, NO ACTION, SET DEFAULT), and zero on-delete action bits for
any other unrecognized action; likewise for on-update. -/
theorem C7_relation_action_bits (iu cm : Bool) (od ou : String) :
    ((bits_for_relation iu cm od ou ∩
        ({BIT_DEL_CASCADE, BIT_DEL_SET_NULL, BIT_DEL_RESTRICT} : Finset Nat)).card
      = if upperStr (trimWs od) = "CASCADE" ∨ upperStr (trimWs od) = "SET NULL"
            ∨ _is_restrict (upperStr (trimWs od)) = true then 1 else 0) ∧
    ((bits_for_relation iu cm od ou ∩
        ({BIT_UPD_CASCADE, BIT_UPD_SET_NULL, BIT_UPD_RESTRICT} : Finset Nat)).card
      = if upperStr (trimWs ou) = "CASCADE" ∨ upperStr (trimWs ou) = "SET NULL"
            ∨ _is_restrict (upperStr (trimWs ou)) = true then 1 else 0) := by
  have h0del :
      (insert (if cm = true then BIT_CHILD_MANDATORY else BIT_CHILD_OPTIONAL)
          (insert (if iu = true then BIT_CARD_1_1 else BIT_CARD_1_N)
            ({BIT_IS_FK_REL, BIT_REL_META, BIT_RELATION} : Finset Nat)) ∩
        ({BIT_DEL_CASCADE, BIT_DEL_SET_NULL, BIT_DEL_RESTRICT} : Finset Nat)) = ∅ := by
    rw [Finset.insert_inter_of_not_mem (by cases cm <;> decide),
      Finset.insert_inter_of_not_mem (by cases iu <;> decide)]
    decide
  have h0upd :
      (insert (if cm = true then BIT_CHILD_MANDATORY else BIT_CHILD_OPTIONAL)
          (insert (if iu = true then BIT_CARD_1_1 else BIT_CARD_1_N)
            ({BIT_IS_FK_REL, BIT_REL_META, BIT_RELATION} : Finset Nat)) ∩
        ({BIT_UPD_CASCADE, BIT_UPD_SET_NULL, BIT_UPD_RESTRICT} : Finset Nat)) = ∅ := by
    rw [Finset.insert_inter_of_not_mem (by cases cm <;> decide),
      Finset.insert_inter_of_not_mem (by cases iu <;> decide)]
    decide
  constructor
  · simp only [bits_for_relation]
    rw [ouIf_inter_del, delIf_inter_card h0del]
  · simp only [bits_for_relation]
    rw [ouIf_inter_card (by rw [odIf_inter_upd]; exact h0upd)]

-- ### Row Bit-Profile: northwind_data_bits.py constants (lines 111-233)

def BIT_CUST_COUNTRY_USA : Nat := 256
def BIT_CUST_COUNTRY_UK : Nat := 257
def BIT_CUST_COUNTRY_GERMANY : Nat := 258
def BIT_CUST_COUNTRY_FRANCE : Nat := 259
def BIT_CUST_COUNTRY_OTHER : Nat := 260
def BIT_CUST_CITY_LONDON : Nat := 264
def BIT_CUST_CITY_PARIS : Nat := 265
def BIT_CUST_CITY_BERLIN : Nat := 266
def BIT_CUST_CITY_SEATTLE : Nat := 267
def BIT_CUST_CITY_MEXICO_DF : Nat := 268
def BIT_PROD_CATEGORY_BASE : Nat := 1024
def BIT_PROD_PRICE_LT_10 : Nat := 1060
def BIT_PROD_PRICE_10_20 : Nat := 1061
def BIT_PROD_PRICE_20_50 : Nat := 1062
def BIT_PROD_PRICE_GE_50 : Nat := 1063
def BIT_ORD_YEAR_1996 : Nat := 1792
def BIT_ORD_YEAR_1997 : Nat := 1793
def BIT_ORD_YEAR_1998 : Nat := 1794
def BIT_ORD_YEAR_OTHER : Nat := 1795
def BIT_OD_QTY_LT_5 : Nat := 1856
def BIT_OD_QTY_5_10 : Nat := 1857
def BIT_OD_QTY_11_20 : Nat := 1858
def BIT_OD_QTY_GT_20 : Nat := 1859
def BIT_OD_DISCOUNT_GT_0 : Nat := 1864

def SUPPORTED_TABLE_TOKENS : List String :=
  ["Customers", "Orders", "OrderDetails", "Products", "Categories"]

/-- A dynamically-typed condition value as the Python code receives it:
absent/None, a string, or a number (int or float, taken exactly). -/
inductive PyVal where
  | pynone
  | pystr (s : String)
  | pynum (q : ℚ)
deriving DecidableEq

/-- Rendering of a number, used by `_norm` and condition labels
(approximates Python `str` on numbers; exact on integers). -/
def ratStr (q : ℚ) : String :=
  if q.den = 1 then toString q.num else toString q.num ++ "/" ++ toString q.den

/-- northwind_data_bits._norm on an already-string value:
`" ".join(str(s).strip().split())`. -/
def _norm_str (s : String) : String := joinSp (wordsGo s.data [])

/-- northwind_data_bits._norm (lines 56-61). -/
def _norm (v : PyVal) : String :=
  match v with
  | .pynone => ""
  | .pystr s => _norm_str s
  | .pynum q => _norm_str (ratStr q)

/-- northwind_data_bits._norm_upper (lines 64-65). -/
def _norm_upper (v : PyVal) : String := upperStr (_norm v)

/-- Python `int(st, 10)` on a normalized string: optional sign then digits. -/
def parseIntBase10 (s : String) : Option Int :=
  match s.data with
  | [] => none
  | c :: rest =>
    let signDigits : Int × List Char :=
      if c = '-' then (-1, rest) else if c = '+' then (1, rest) else (1, c :: rest)
    if signDigits.2.isEmpty || !(signDigits.2.all Char.isDigit) then none
    else some (signDigits.1 * (digitsToNat signDigits.2 : Int))

/-- Python `Decimal(st)` on the decimal-literal forms this importer produces:
optional sign, integer digits, optional fraction (exponent forms not modelled). -/
def parseDecimalStr (s : String) : Option ℚ :=
  match s.data with
  | [] => none
  | c :: rest =>
    let signBody : ℚ × List Char :=
      if c = '-' then (-1, rest) else if c = '+' then (1, rest) else (1, c :: rest)
    let intPart := signBody.2.takeWhile Char.isDigit
    let afterInt := signBody.2.dropWhile Char.isDigit
    match afterInt with
    | [] => if intPart.isEmpty then none else some (signBody.1 * (digitsToNat intPart : ℚ))
    | '.' :: frac =>
      if frac.all Char.isDigit ∧ ¬(intPart.isEmpty ∧ frac.isEmpty) then
        some (signBody.1 *
          ((digitsToNat intPart : ℚ) + (digitsToNat frac : ℚ) / (10 : ℚ) ^ frac.length))
      else none
    | _ => none

/-- northwind_data_bits._parse_int (lines 68-79): an int/float equal to an
integer is taken directly; otherwise the normalized string is parsed base 10. -/
def _parse_int (v : PyVal) : Option Int :=
  match v with
  | .pynone => none
  | .pynum q => if q.den = 1 then some q.num else none
  | .pystr s =>
    let st := _norm_str s
    if st = "" then none else parseIntBase10 st

/-- northwind_data_bits._parse_decimal (lines 82-95): numbers become Decimal
exactly; strings are normalized then parsed as decimal literals. -/
def _parse_decimal (v : PyVal) : Option ℚ :=
  match v with
  | .pynone => none
  | .pynum q => some q
  | .pystr s =>
    let st := _norm_str s
    if st = "" then none else parseDecimalStr st

def COUNTRY_BITS : List (String × Nat) :=
  [("USA", BIT_CUST_COUNTRY_USA), ("U.S.A.", BIT_CUST_COUNTRY_USA),
   ("UK", BIT_CUST_COUNTRY_UK), ("U.K.", BIT_CUST_COUNTRY_UK),
   ("UNITED KINGDOM", BIT_CUST_COUNTRY_UK),
   ("GERMANY", BIT_CUST_COUNTRY_GERMANY), ("FRANCE", BIT_CUST_COUNTRY_FRANCE)]

def CITY_BITS : List (String × Nat) :=
  [("LONDON", BIT_CUST_CITY_LONDON), ("PARIS", BIT_CUST_CITY_PARIS),
   ("BERLIN", BIT_CUST_CITY_BERLIN), ("SEATTLE", BIT_CUST_CITY_SEATTLE),
   ("MÉXICO D.F.", BIT_CUST_CITY_MEXICO_DF), ("MEXICO D.F.", BIT_CUST_CITY_MEXICO_DF)]

/-- Python `dict.get` on the fixed lookup tables. -/
def dictGet (d : List (String × Nat)) (k : String) : Option Nat :=
  (d.find? fun kv => kv.1 = k).map (·.2)

/-- northwind_data_bits.BitCondition (lines 281-286); `kind` is the
`Literal["all", "any"]` field. -/
inductive CondKind where
  | all
  | any
deriving DecidableEq

structure BitCondition where
  kind : CondKind
  mask : Int
  bits : List Nat
  label : String
deriving DecidableEq

/-- northwind_data_bits._int_from_bits (lines 47-53): or together `1 << b`,
rejecting any bit outside 0..4095 (the compiler only ever passes 0..4095). -/
def _int_from_bits (bits : List Nat) : Except String Int :=
  List.foldlM
    (fun x b =>
      if 4095 < b then Except.error "INVALID_BIT"
      else Except.ok (Int.lor x (Int.ofNat (1 <<< b))))
    0 bits

/-- northwind_data_bits._mask_from_bits (lines 277-278). -/
def _mask_from_bits (bits : List Nat) : Except String Int := _int_from_bits bits

/-- One raw condition dict `{column, op, value}` as received by the compiler. -/
structure RawCond where
  column : String
  op : String
  value : PyVal

/-- Insertion step for ascending sort. -/
def insSorted (x : Nat) : List Nat → List Nat
  | [] => [x]
  | y :: ys => if x ≤ y then x :: y :: ys else y :: insSorted x ys

def sortNat (l : List Nat) : List Nat := l.foldr insSorted []

/-- Remove consecutive duplicates (a sorted list becomes a sorted set, modelling
Python `sorted(set(...))`). -/
def dedupSorted : List Nat → List Nat
  | [] => []
  | [x] => [x]
  | x :: y :: r => if x = y then dedupSorted (y :: r) else x :: dedupSorted (y :: r)

/-- The UnitPrice bucket table (northwind_data_bits.py lines 374-379). -/
def priceBuckets : List (Nat × ℚ × Option ℚ) :=
  [(BIT_PROD_PRICE_LT_10, 0, some 10), (BIT_PROD_PRICE_10_20, 10, some 20),
   (BIT_PROD_PRICE_20_50, 20, some 50), (BIT_PROD_PRICE_GE_50, 50, Option.none)]

/-- The UnitPrice bucket loop (northwind_data_bits.py lines 380-408), with the
`break` on `=` modelled by returning `[bit]` immediately (for `=` the
accumulator is still empty when the break fires). -/
def priceLoop (op : String) (price : ℚ) :
    List (Nat × ℚ × Option ℚ) → List Nat → List Nat
  | [], allowed => allowed
  | (bit, lo, hi) :: rest, allowed =>
    if op = "=" then
      match hi with
      | Option.none =>
        if lo ≤ price then [bit] else priceLoop op price rest allowed
      | some h =>
        if lo ≤ price ∧ price < h then [bit] else priceLoop op price rest allowed
    else if op = ">" ∨ op = ">=" then
      match hi with
      | Option.none =>
        if price ≤ lo then priceLoop op price rest (allowed ++ [bit])
        else priceLoop op price rest allowed
      | some h =>
        if op = ">=" ∧ h ≤ price then priceLoop op price rest allowed
        else if op = ">" ∧ h ≤ price then priceLoop op price rest allowed
        else if price < h then priceLoop op price rest (allowed ++ [bit])
        else priceLoop op price rest allowed
    else
      match hi with
      | Option.none =>
        -- source: the guard only wraps a `continue`; neither path appends.
        if price < lo ∨ (op = "<=" ∧ price ≤ lo) then priceLoop op price rest allowed
        else priceLoop op price rest allowed
      | some _ =>
        if op = "<" ∧ price ≤ lo then priceLoop op price rest allowed
        else if op = "<=" ∧ price < lo then priceLoop op price rest allowed
        else if lo < price ∨ (op = "<=" ∧ lo ≤ price) then
          priceLoop op price rest (allowed ++ [bit])
        else priceLoop op price rest allowed

/-- The Quantity bucket table (northwind_data_bits.py lines 440-445). -/
def qtyBuckets : List (Nat × Option Int × Option Int) :=
  [(BIT_OD_QTY_LT_5, Option.none, some 5), (BIT_OD_QTY_5_10, some 5, some 11),
   (BIT_OD_QTY_11_20, some 11, some 21), (BIT_OD_QTY_GT_20, some 21, Option.none)]

/-- The Quantity bucket loop (northwind_data_bits.py lines 446-466). -/
def qtyLoop (op : String) (qty : Int) :
    List (Nat × Option Int × Option Int) → List Nat → List Nat
  | [], allowed => allowed
  | (bit, lo, hi) :: rest, allowed =>
    if op = "=" then
      match lo, hi with
      | Option.none, some h =>
        if qty < h then [bit] else qtyLoop op qty rest allowed
      | some l, Option.none =>
        if l ≤ qty then [bit] else qtyLoop op qty rest allowed
      | some l, some h =>
        if l ≤ qty ∧ qty < h then [bit] else qtyLoop op qty rest allowed
      | Option.none, Option.none => qtyLoop op qty rest allowed
    else if op = ">" ∨ op = ">=" then
      match lo, hi with
      | some l, Option.none =>
        if qty ≤ l then qtyLoop op qty rest (allowed ++ [bit])
        else qtyLoop op qty rest allowed
      | _, some h =>
        if qty < h then qtyLoop op qty rest (allowed ++ [bit])
        else qtyLoop op qty rest allowed
      | _, Option.none => qtyLoop op qty rest allowed
    else
      match lo, hi with
      | Option.none, some h =>
        if qty < h then qtyLoop op qty rest (allowed ++ [bit])
        else qtyLoop op qty rest allowed
      | some l, _ =>
        if qty < l ∨ (op = "<=" ∧ qty ≤ l) then qtyLoop op qty rest allowed
        else qtyLoop op qty rest (allowed ++ [bit])
      | Option.none, Option.none => qtyLoop op qty rest allowed

/-- The per-condition body of bit_conditions_for (northwind_data_bits.py lines
315-489): normalize column/op, validate, then dispatch through the source's
if-cascade; each taken branch appends one BitCondition and its bits. -/
def condLoop (t : String) :
    List RawCond → (List BitCondition × List Nat) →
      Except String (List BitCondition × List Nat)
  | [], acc => Except.ok acc
  | raw :: rest, acc => do
    let col := _norm_str raw.column
    let op0 := _norm_str raw.op
    let op := if op0 = "" then "=" else op0
    let val := raw.value
    if col = "" then Except.error "condition column is required"
    else if ¬(op = "=" ∨ op = "<" ∨ op = "<=" ∨ op = ">" ∨ op = ">=") then
      Except.error "unsupported operator"
    else if t = "Customers" ∧ col = "Country" ∧ op = "=" then
      let ctry := _norm_upper val
      if ctry = "" then Except.error "Country value is required"
      else match dictGet COUNTRY_BITS ctry with
        | Option.none => Except.error "unsupported Country (only demo buckets are supported)"
        | some b => do
          let m ← _mask_from_bits [b]
          condLoop t rest
            (acc.1 ++ [⟨CondKind.all, m, [b], "Country=" ++ ctry⟩], acc.2 ++ [b])
    else if t = "Customers" ∧ col = "City" ∧ op = "=" then
      let city := _norm_upper val
      if city = "" then Except.error "City value is required"
      else match dictGet CITY_BITS city with
        | Option.none => Except.error "unsupported City (only demo buckets are supported)"
        | some b => do
          let m ← _mask_from_bits [b]
          condLoop t rest
            (acc.1 ++ [⟨CondKind.all, m, [b], "City=" ++ city⟩], acc.2 ++ [b])
    else if (t = "Products" ∨ t = "Categories") ∧ col = "CategoryID" ∧ op = "=" then
      match _parse_int val with
      | Option.none => Except.error "CategoryID must be an integer"
      | some cat =>
        if ¬(1 ≤ cat ∧ cat ≤ 32) then Except.error "CategoryID out of range"
        else do
          let b := BIT_PROD_CATEGORY_BASE + (cat - 1).toNat
          let m ← _mask_from_bits [b]
          condLoop t rest
            (acc.1 ++ [⟨CondKind.all, m, [b], "CategoryID=" ++ toString cat⟩], acc.2 ++ [b])
    else if t = "Products" ∧ col = "UnitPrice" then
      match _parse_decimal val with
      | Option.none => Except.error "UnitPrice must be numeric"
      | some price =>
        let allowed := priceLoop op price priceBuckets []
        if allowed = [] then
          Except.error "UnitPrice predicate not supported by buckets"
        else do
          let m ← _mask_from_bits allowed
          let kind := if allowed.length = 1 then CondKind.all else CondKind.any
          condLoop t rest
            (acc.1 ++ [⟨kind, m, allowed, "UnitPrice" ++ op ++ ratStr price⟩],
             acc.2 ++ allowed)
    else if t = "Orders" ∧ col = "OrderYear" ∧ op = "=" then
      match _parse_int val with
      | Option.none => Except.error "OrderYear must be an integer"
      | some y =>
        let bit :=
          if y = 1996 then BIT_ORD_YEAR_1996
          else if y = 1997 then BIT_ORD_YEAR_1997
          else if y = 1998 then BIT_ORD_YEAR_1998
          else BIT_ORD_YEAR_OTHER
        do
          let m ← _mask_from_bits [bit]
          condLoop t rest
            (acc.1 ++ [⟨CondKind.all, m, [bit], "OrderYear=" ++ toString y⟩], acc.2 ++ [bit])
    else if t = "OrderDetails" ∧ col = "Quantity" then
      match _parse_int val with
      | Option.none => Except.error "Quantity must be an integer"
      | some qty =>
        let allowed := qtyLoop op qty qtyBuckets []
        if allowed = [] then
          Except.error "Quantity predicate not supported by buckets"
        else do
          let m ← _mask_from_bits allowed
          let kind := if allowed.length = 1 then CondKind.all else CondKind.any
          condLoop t rest
            (acc.1 ++ [⟨kind, m, allowed, "Quantity" ++ op ++ toString qty⟩],
             acc.2 ++ allowed)
    else if t = "OrderDetails" ∧ col = "Discount" ∧ (op = ">" ∨ op = ">=" ∨ op = "=") then
      match _parse_decimal val with
      | Option.none => Except.error "Discount must be numeric"
      | some disc =>
        if disc ≤ 0 ∧ ¬op = "=" then
          Except.error "only Discount > 0 is supported"
        else do
          let m ← _mask_from_bits [BIT_OD_DISCOUNT_GT_0]
          condLoop t rest
            (acc.1 ++ [⟨CondKind.all, m, [BIT_OD_DISCOUNT_GT_0], "Discount>0"⟩],
             acc.2 ++ [BIT_OD_DISCOUNT_GT_0])
    else Except.error "predicate not supported by bitset encoding"

/-- northwind_data_bits.bit_conditions_for (lines 300-491): validate the table,
run the condition loop, and return the conditions plus the sorted set of
referenced bits. -/
def bit_conditions_for (table : String) (conditions : List RawCond) :
    Except String (List BitCondition × List Nat) := do
  let t := trimWs table
  if ¬ SUPPORTED_TABLE_TOKENS.contains t then Except.error "unsupported table"
  else do
    let acc ← condLoop t conditions ([], [])
    Except.ok (acc.1, dedupSorted (sortNat acc.2))

/-- The bucket loop for `>=`: a bounded bucket [lo,hi) is kept iff hi > v; the
unbounded bucket iff v ≤ 50 (this is overlap, not subset-safety). -/
theorem priceLoop_ge_eq (v : ℚ) :
    priceLoop ">=" v priceBuckets [] =
      (if v < 10 then [BIT_PROD_PRICE_LT_10] else []) ++
      (if v < 20 then [BIT_PROD_PRICE_10_20] else []) ++
      (if v < 50 then [BIT_PROD_PRICE_20_50] else []) ++
      (if v ≤ 50 then [BIT_PROD_PRICE_GE_50] else []) := by
  simp [priceLoop, priceBuckets]
  split_ifs <;> first | rfl | (exfalso; linarith)

/-- Full evaluation of the compiler on `UnitPrice >= v` by threshold region. -/
theorem compile_price_ge (v : ℚ) :
    bit_conditions_for "Products" [⟨"UnitPrice", ">=", .pynum v⟩] =
      if v < 10 then
        Except.ok ([⟨CondKind.any,
          Int.ofNat ((1 <<< BIT_PROD_PRICE_LT_10) ||| (1 <<< BIT_PROD_PRICE_10_20) |||
            (1 <<< BIT_PROD_PRICE_20_50) ||| (1 <<< BIT_PROD_PRICE_GE_50)),
          [BIT_PROD_PRICE_LT_10, BIT_PROD_PRICE_10_20, BIT_PROD_PRICE_20_50, BIT_PROD_PRICE_GE_50],
          "UnitPrice>=" ++ ratStr v⟩],
          [BIT_PROD_PRICE_LT_10, BIT_PROD_PRICE_10_20, BIT_PROD_PRICE_20_50, BIT_PROD_PRICE_GE_50])
      else if v < 20 then
        Except.ok ([⟨CondKind.any,
          Int.ofNat ((1 <<< BIT_PROD_PRICE_10_20) ||| (1 <<< BIT_PROD_PRICE_20_50) |||
            (1 <<< BIT_PROD_PRICE_GE_50)),
          [BIT_PROD_PRICE_10_20, BIT_PROD_PRICE_20_50, BIT_PROD_PRICE_GE_50],
          "UnitPrice>=" ++ ratStr v⟩],
          [BIT_PROD_PRICE_10_20, BIT_PROD_PRICE_20_50, BIT_PROD_PRICE_GE_50])
      else if v < 50 then
        Except.ok ([⟨CondKind.any,
          Int.ofNat ((1 <<< BIT_PROD_PRICE_20_50) ||| (1 <<< BIT_PROD_PRICE_GE_50)),
          [BIT_PROD_PRICE_20_50, BIT_PROD_PRICE_GE_50],
          "UnitPrice>=" ++ ratStr v⟩],
          [BIT_PROD_PRICE_20_50, BIT_PROD_PRICE_GE_50])
      else if v ≤ 50 then
        Except.ok ([⟨CondKind.all, Int.ofNat (1 <<< BIT_PROD_PRICE_GE_50),
          [BIT_PROD_PRICE_GE_50], "UnitPrice>=" ++ ratStr v⟩], [BIT_PROD_PRICE_GE_50])
      else Except.error "UnitPrice predicate not supported by buckets" := by
  by_cases h1 : v < 10
  · rw [if_pos h1]
    have hall : priceLoop ">=" v priceBuckets [] =
        [BIT_PROD_PRICE_LT_10, BIT_PROD_PRICE_10_20, BIT_PROD_PRICE_20_50,
          BIT_PROD_PRICE_GE_50] := by
      rw [priceLoop_ge_eq v, if_pos h1, if_pos (show v < 20 by linarith),
        if_pos (show v < 50 by linarith), if_pos (show v ≤ 50 by linarith)]
      rfl
    simp only [bit_conditions_for, condLoop, _parse_decimal]
    rw [show (if _norm_str ">=" = "" then "=" else _norm_str ">=") = ">=" from rfl, hall]
    rfl
  · rw [if_neg h1]
    by_cases h2 : v < 20
    · rw [if_pos h2]
      have hall : priceLoop ">=" v priceBuckets [] =
          [BIT_PROD_PRICE_10_20, BIT_PROD_PRICE_20_50, BIT_PROD_PRICE_GE_50] := by
        rw [priceLoop_ge_eq v, if_neg h1, if_pos h2, if_pos (show v < 50 by linarith),
          if_pos (show v ≤ 50 by linarith)]
        rfl
      simp only [bit_conditions_for, condLoop, _parse_decimal]
      rw [show (if _norm_str ">=" = "" then "=" else _norm_str ">=") = ">=" from rfl, hall]
      rfl
    · rw [if_neg h2]
      by_cases h3 : v < 50
      · rw [if_pos h3]
        have hall : priceLoop ">=" v priceBuckets [] =
            [BIT_PROD_PRICE_20_50, BIT_PROD_PRICE_GE_50] := by
          rw [priceLoop_ge_eq v, if_neg h1, if_neg h2, if_pos h3,
            if_pos (show v ≤ 50 by linarith)]
          rfl
        simp only [bit_conditions_for, condLoop, _parse_decimal]
        rw [show (if _norm_str ">=" = "" then "=" else _norm_str ">=") = ">=" from rfl, hall]
        rfl
      · rw [if_neg h3]
        by_cases h4 : v ≤ 50
        · rw [if_pos h4]
          have hall : priceLoop ">=" v priceBuckets [] = [BIT_PROD_PRICE_GE_50] := by
            rw [priceLoop_ge_eq v, if_neg h1, if_neg h2, if_neg h3, if_pos h4]
            rfl
          simp only [bit_conditions_for, condLoop, _parse_decimal]
          rw [show (if _norm_str ">=" = "" then "=" else _norm_str ">=") = ">=" from rfl, hall]
          rfl
        · rw [if_neg h4]
          have hall : priceLoop ">=" v priceBuckets [] = [] := by
            rw [priceLoop_ge_eq v, if_neg h1, if_neg h2, if_neg h3, if_neg h4]
            rfl
          simp only [bit_conditions_for, condLoop, _parse_decimal]
          rw [show (if _norm_str ">=" = "" then "=" else _norm_str ">=") = ">=" from rfl, hall]
          rfl

/-- C1 counterexample: compiling the single condition UnitPrice >= 15 on table
Products succeeds (an ANY clause over three buckets); it does not raise
PredicateNotBucketable, refuting the claim as stated. -/
theorem C1_counterexample :
    ∃ out, bit_conditions_for "Products" [⟨"UnitPrice", ">=", PyVal.pynum 15⟩] =
      Except.ok out := by
  refine ⟨([⟨CondKind.any,
    Int.ofNat ((1 <<< BIT_PROD_PRICE_10_20) ||| (1 <<< BIT_PROD_PRICE_20_50) |||
      (1 <<< BIT_PROD_PRICE_GE_50)),
    [BIT_PROD_PRICE_10_20, BIT_PROD_PRICE_20_50, BIT_PROD_PRICE_GE_50],
    "UnitPrice>=15"⟩],
    [BIT_PROD_PRICE_10_20, BIT_PROD_PRICE_20_50, BIT_PROD_PRICE_GE_50]), ?_⟩
  rw [compile_price_ge 15, if_neg (by norm_num), if_pos (by norm_num)]
  rfl

/-- C1 (amended): the compiler does not refuse a `>=` threshold strictly inside
a bucket; UnitPrice >= 15 compiles to a single ANY condition over
bit[10,20) | bit[20,50) | bit[≥50), and the not-bucketable INVALID_INPUT error
is raised for `>=` exactly when the threshold exceeds 50 (no bucket overlaps). -/
theorem C1_price_ge_overlap_not_refused :
    (bit_conditions_for "Products" [⟨"UnitPrice", ">=", PyVal.pynum 15⟩] =
      Except.ok ([⟨CondKind.any,
        Int.ofNat ((1 <<< BIT_PROD_PRICE_10_20) ||| (1 <<< BIT_PROD_PRICE_20_50) |||
          (1 <<< BIT_PROD_PRICE_GE_50)),
        [BIT_PROD_PRICE_10_20, BIT_PROD_PRICE_20_50, BIT_PROD_PRICE_GE_50],
        "UnitPrice>=15"⟩],
        [BIT_PROD_PRICE_10_20, BIT_PROD_PRICE_20_50, BIT_PROD_PRICE_GE_50])) ∧
    (∀ v : ℚ, (∃ e, bit_conditions_for "Products" [⟨"UnitPrice", ">=", PyVal.pynum v⟩]
        = Except.error e) ↔ 50 < v) := by
  constructor
  · rw [compile_price_ge 15, if_neg (by norm_num), if_pos (by norm_num)]
    rfl
  · intro v
    rw [compile_price_ge v]
    split_ifs with h1 h2 h3 h4 <;> simp <;> linarith

/-- C3 counterexample: UnitPrice >= 15 emits a clause whose mask includes
bit[10,20) although the bucket value 12 lies in [10,20) and fails 12 >= 15, so
buckets are not included only when every representable value satisfies the
predicate. -/
theorem C3_counterexample :
    ∃ bc : BitCondition,
      bit_conditions_for "Products" [⟨"UnitPrice", ">=", PyVal.pynum 15⟩] =
        Except.ok ([bc], bc.bits) ∧
      BIT_PROD_PRICE_10_20 ∈ bc.bits ∧
      (10 : ℚ) ≤ 12 ∧ (12 : ℚ) < 20 ∧ ¬(15 : ℚ) ≤ 12 := by
  refine ⟨⟨CondKind.any,
    Int.ofNat ((1 <<< BIT_PROD_PRICE_10_20) ||| (1 <<< BIT_PROD_PRICE_20_50) |||
      (1 <<< BIT_PROD_PRICE_GE_50)),
    [BIT_PROD_PRICE_10_20, BIT_PROD_PRICE_20_50, BIT_PROD_PRICE_GE_50],
    "UnitPrice>=15"⟩, ?_, by decide, by norm_num, by norm_num, by norm_num⟩
  rw [compile_price_ge 15, if_neg (by norm_num), if_pos (by norm_num)]
  rfl

/-- C3 (amended): UnitPrice >= 20 yields exactly one ANY condition with mask
bit[20,50) | bit[≥50), never bit[10,20); in general for `>=` a bounded bucket
[lo,hi) is included iff hi > threshold and the ≥50 bucket iff threshold ≤ 50
(overlap, not whole-bucket satisfaction), with ALL iff exactly one bucket
qualifies and ANY otherwise. -/
theorem C3_subset_inclusion_rule :
    (bit_conditions_for "Products" [⟨"UnitPrice", ">=", PyVal.pynum 20⟩] =
      Except.ok ([⟨CondKind.any,
        Int.ofNat ((1 <<< BIT_PROD_PRICE_20_50) ||| (1 <<< BIT_PROD_PRICE_GE_50)),
        [BIT_PROD_PRICE_20_50, BIT_PROD_PRICE_GE_50], "UnitPrice>=20"⟩],
        [BIT_PROD_PRICE_20_50, BIT_PROD_PRICE_GE_50])) ∧
    (∀ (v : ℚ) (out : List BitCondition × List Nat),
      bit_conditions_for "Products" [⟨"UnitPrice", ">=", PyVal.pynum v⟩] = Except.ok out →
      ∃ bc, out.1 = [bc] ∧
        (∀ b, b ∈ bc.bits ↔
          ((b = BIT_PROD_PRICE_LT_10 ∧ v < 10) ∨ (b = BIT_PROD_PRICE_10_20 ∧ v < 20) ∨
           (b = BIT_PROD_PRICE_20_50 ∧ v < 50) ∨ (b = BIT_PROD_PRICE_GE_50 ∧ v ≤ 50))) ∧
        (bc.kind = CondKind.all ↔ bc.bits.length = 1)) := by
  constructor
  · rw [compile_price_ge 20, if_neg (by norm_num), if_neg (by norm_num), if_pos (by norm_num)]
    rfl
  · intro v out h
    rw [compile_price_ge v] at h
    split_ifs at h with h1 h2 h3 h4
    · injection h with h
      subst h
      refine ⟨_, rfl, ?_, by simp⟩
      intro b
      simp only [List.mem_cons, List.not_mem_nil, or_false]
      constructor
      · rintro (rfl | rfl | rfl | rfl)
        · exact Or.inl ⟨rfl, h1⟩
        · exact Or.inr (Or.inl ⟨rfl, by linarith⟩)
        · exact Or.inr (Or.inr (Or.inl ⟨rfl, by linarith⟩))
        · exact Or.inr (Or.inr (Or.inr ⟨rfl, by linarith⟩))
      · rintro (⟨rfl, _⟩ | ⟨rfl, _⟩ | ⟨rfl, _⟩ | ⟨rfl, _⟩)
        · exact Or.inl rfl
        · exact Or.inr (Or.inl rfl)
        · exact Or.inr (Or.inr (Or.inl rfl))
        · exact Or.inr (Or.inr (Or.inr rfl))
    · injection h with h
      subst h
      refine ⟨_, rfl, ?_, by simp⟩
      intro b
      simp only [List.mem_cons, List.not_mem_nil, or_false]
      constructor
      · rintro (rfl | rfl | rfl)
        · exact Or.inr (Or.inl ⟨rfl, h2⟩)
        · exact Or.inr (Or.inr (Or.inl ⟨rfl, by linarith⟩))
        · exact Or.inr (Or.inr (Or.inr ⟨rfl, by linarith⟩))
      · rintro (⟨rfl, hv⟩ | ⟨rfl, hv⟩ | ⟨rfl, hv⟩ | ⟨rfl, hv⟩)
        · exact absurd hv h1
        · exact Or.inl rfl
        · exact Or.inr (Or.inl rfl)
        · exact Or.inr (Or.inr rfl)
    · injection h with h
      subst h
      refine ⟨_, rfl, ?_, by simp⟩
      intro b
      simp only [List.mem_cons, List.not_mem_nil, or_false]
      constructor
      · rintro (rfl | rfl)
        · exact Or.inr (Or.inr (Or.inl ⟨rfl, h3⟩))
        · exact Or.inr (Or.inr (Or.inr ⟨rfl, by linarith⟩))
      · rintro (⟨rfl, hv⟩ | ⟨rfl, hv⟩ | ⟨rfl, hv⟩ | ⟨rfl, hv⟩)
        · exact absurd hv h1
        · exact absurd hv h2
        · exact Or.inl rfl
        · exact Or.inr rfl
    · injection h with h
      subst h
      refine ⟨_, rfl, ?_, by simp⟩
      intro b
      simp only [List.mem_cons, List.not_mem_nil, or_false]
      constructor
      · rintro rfl
        exact Or.inr (Or.inr (Or.inr ⟨rfl, h4⟩))
      · rintro (⟨rfl, hv⟩ | ⟨rfl, hv⟩ | ⟨rfl, hv⟩ | ⟨rfl, hv⟩)
        · exact absurd hv h1
        · exact absurd hv h2
        · exact absurd hv h3
        · rfl

/-- C3 witness at threshold 20. -/
theorem C3_subset_inclusion_rule_witness :
    ∃ bc, (([⟨CondKind.any,
        Int.ofNat ((1 <<< BIT_PROD_PRICE_20_50) ||| (1 <<< BIT_PROD_PRICE_GE_50)),
        [BIT_PROD_PRICE_20_50, BIT_PROD_PRICE_GE_50], "UnitPrice>=20"⟩],
        [BIT_PROD_PRICE_20_50, BIT_PROD_PRICE_GE_50]) :
          List BitCondition × List Nat).1 = [bc] ∧
      (∀ b, b ∈ bc.bits ↔
        ((b = BIT_PROD_PRICE_LT_10 ∧ (20 : ℚ) < 10) ∨
         (b = BIT_PROD_PRICE_10_20 ∧ (20 : ℚ) < 20) ∨
         (b = BIT_PROD_PRICE_20_50 ∧ (20 : ℚ) < 50) ∨
         (b = BIT_PROD_PRICE_GE_50 ∧ (20 : ℚ) ≤ 50))) ∧
      (bc.kind = CondKind.all ↔ bc.bits.length = 1) :=
  C3_subset_inclusion_rule.2 20 _ C3_subset_inclusion_rule.1

/-- C10: for table OrderDetails, an equality condition Discount = v for any
parseable numeric v (including 0 and negatives) compiles to a single ALL
condition whose mask is exactly the discount>0 bit, never rejected. -/
theorem C10_discount_equality (val : PyVal) (v : ℚ) (hval : _parse_decimal val = some v) :
    bit_conditions_for "OrderDetails" [⟨"Discount", "=", val⟩] =
      Except.ok ([⟨CondKind.all, Int.ofNat (1 <<< BIT_OD_DISCOUNT_GT_0),
        [BIT_OD_DISCOUNT_GT_0], "Discount>0"⟩], [BIT_OD_DISCOUNT_GT_0]) := by
  simp only [bit_conditions_for, condLoop]
  rw [hval]
  dsimp only
  rw [if_neg (show ¬(v ≤ 0 ∧ ¬(if _norm_str "=" = "" then "=" else _norm_str "=") = "=") from
    fun hc => hc.2 rfl)]
  rfl

/-- C10 witness at v = 0 and v = -3. -/
theorem C10_discount_equality_witness :
    (bit_conditions_for "OrderDetails" [⟨"Discount", "=", PyVal.pynum 0⟩] =
      Except.ok ([⟨CondKind.all, Int.ofNat (1 <<< BIT_OD_DISCOUNT_GT_0),
        [BIT_OD_DISCOUNT_GT_0], "Discount>0"⟩], [BIT_OD_DISCOUNT_GT_0])) ∧
    (bit_conditions_for "OrderDetails" [⟨"Discount", "=", PyVal.pynum (-3)⟩] =
      Except.ok ([⟨CondKind.all, Int.ofNat (1 <<< BIT_OD_DISCOUNT_GT_0),
        [BIT_OD_DISCOUNT_GT_0], "Discount>0"⟩], [BIT_OD_DISCOUNT_GT_0])) :=
  ⟨C10_discount_equality (PyVal.pynum 0) 0 rfl,
   C10_discount_equality (PyVal.pynum (-3)) (-3) rfl⟩

-- ### Scan-and-Filter Evaluator: northwind_data.compare_sql_vs_bitsets
-- (lines 272-302); the ~400-key mget batches only batch reads of the same
-- store, so the evaluation is modelled directly over the (key, value) reads.

/-- northwind_data._row_id_from_data_key (lines 223-230). -/
def _row_id_from_data_key (key pfx table : String) : Option String :=
  let p := stripColons pfx
  let t := trimWs table
  let want := p ++ ":data:" ++ t ++ ":"
  if want.data.isPrefixOf key.data then
    let rid := String.mk (key.data.drop want.data.length)
    if rid = "" then none else some rid
  else none

/-- One clause test from the scan loop (lines 289-297):
ALL requires (x AND mask) = mask, ANY requires (x AND mask) nonzero. -/
def clauseOk (x : Int) (bc : BitCondition) : Bool :=
  match bc.kind with
  | CondKind.all => Int.land x bc.mask == bc.mask
  | CondKind.any => !(Int.land x bc.mask == 0)

/-- Per-row handling of one scanned key (lines 277-302): a missing value, an
empty value after strip, or an unparseable value is skipped (continue), else
the row id is retained iff every clause passes. -/
def scanRow (bit_conds : List BitCondition) (pfx table : String)
    (key : String) (raw_val : Option String) : Option String :=
  match raw_val with
  | none => none
  | some raw =>
    let s := trimWs raw
    if s = "" then none
    else
      match parseIntBase10 s with
      | none => none
      | some x =>
        if bit_conds.all (clauseOk x) then _row_id_from_data_key key pfx table
        else none

/-- The bitset side of compare_sql_vs_bitsets: the retained row identifiers. -/
def compare_scan_filter (bit_conds : List BitCondition) (pfx table : String)
    (keyVals : List (String × Option String)) : List String :=
  keyVals.filterMap fun kv => scanRow bit_conds pfx table kv.1 kv.2

/-- Clause satisfaction as a proposition. -/
theorem clauseOk_iff (x : Int) (bc : BitCondition) :
    clauseOk x bc = true ↔
      ((bc.kind = CondKind.all → Int.land x bc.mask = bc.mask) ∧
       (bc.kind = CondKind.any → Int.land x bc.mask ≠ 0)) := by
  cases hk : bc.kind <;> simp [clauseOk, hk]

theorem scanRow_eq_some (bit_conds : List BitCondition) (pfx table key : String)
    (v : Option String) (rid : String) :
    scanRow bit_conds pfx table key v = some rid ↔
      ∃ s x, v = some s ∧ trimWs s ≠ "" ∧ parseIntBase10 (trimWs s) = some x ∧
        (∀ bc ∈ bit_conds,
          (bc.kind = CondKind.all → Int.land x bc.mask = bc.mask) ∧
          (bc.kind = CondKind.any → Int.land x bc.mask ≠ 0)) ∧
        _row_id_from_data_key key pfx table = some rid := by
  cases v with
  | none => simp [scanRow]
  | some raw =>
    simp only [scanRow]
    by_cases hs : trimWs raw = ""
    · simp [hs]
    · rw [if_neg hs]
      cases hx : parseIntBase10 (trimWs raw) with
      | none => simp [hx, hs]
      | some x =>
        dsimp only
        by_cases hall : bit_conds.all (clauseOk x) = true
        · rw [if_pos hall]
          constructor
          · intro hr
            refine ⟨raw, x, rfl, hs, hx, ?_, hr⟩
            intro bc hbc
            exact (clauseOk_iff x bc).mp (List.all_eq_true.mp hall bc hbc)
          · rintro ⟨s, x', hsv, _, hx', _, hr⟩
            cases hsv
            rw [hx] at hx'
            cases hx'
            exact hr
        · rw [if_neg hall]
          constructor
          · intro hr
            cases hr
          · rintro ⟨s, x', hsv, _, hx', hcl, _⟩
            cases hsv
            rw [hx] at hx'
            cases hx'
            exact absurd
              (List.all_eq_true.mpr fun bc hbc => (clauseOk_iff x bc).mpr (hcl bc hbc)) hall

/-- C6: during the scan, a row identifier is retained iff its stored value is
present, non-empty after trimming, parses as a decimal integer x, and x
satisfies every compiled clause ((x AND mask) = mask for ALL, nonzero for ANY);
missing, empty or unparseable values are skipped as non-matching, never errors
(the evaluator is a total function). -/
theorem C6_scan_filter_characterization (bit_conds : List BitCondition)
    (pfx table : String) (keyVals : List (String × Option String)) (rid : String) :
    rid ∈ compare_scan_filter bit_conds pfx table keyVals ↔
      ∃ kv ∈ keyVals, ∃ s x, kv.2 = some s ∧ trimWs s ≠ "" ∧
        parseIntBase10 (trimWs s) = some x ∧
        (∀ bc ∈ bit_conds,
          (bc.kind = CondKind.all → Int.land x bc.mask = bc.mask) ∧
          (bc.kind = CondKind.any → Int.land x bc.mask ≠ 0)) ∧
        _row_id_from_data_key kv.1 pfx table = some rid := by
  simp only [compare_scan_filter, List.mem_filterMap]
  constructor
  · rintro ⟨kv, hkv, hr⟩
    exact ⟨kv, hkv, (scanRow_eq_some bit_conds pfx table kv.1 kv.2 rid).mp hr⟩
  · rintro ⟨kv, hkv, hrest⟩
    exact ⟨kv, hkv, (scanRow_eq_some bit_conds pfx table kv.1 kv.2 rid).mpr hrest⟩

-- ### Reconciliation Reporter: northwind_compare.py rounding (lines 202-210)
-- and the per-order totals of report_order_totals_sample (lines 588-659)

/-- One OrderDetails row (UnitPrice, Quantity, Discount) as read by the totals
report; values are exact decimals, modelled as rationals. -/
structure DetailRow where
  unitPrice : ℚ
  quantity : ℚ
  discount : ℚ
deriving DecidableEq

/-- northwind_compare._round_2 (lines 209-210): the semantics of
`Decimal.quantize(Decimal("0.01"), rounding=ROUND_HALF_UP)` — round to two
decimal places, ties away from zero. -/
def _round_2 (x : ℚ) : ℚ :=
  if 0 ≤ x then (⌊x * 100 + 1/2⌋ : ℚ) / 100
  else -((⌊-x * 100 + 1/2⌋ : ℚ) / 100)

/-- The shared accumulation `total += up * qty * (1 - disc)` run by both sides
(northwind_compare.py lines 620-624 and 634-643). -/
def order_total (rows : List DetailRow) : ℚ :=
  rows.foldl (fun total rw => total + rw.unitPrice * rw.quantity * (1 - rw.discount)) 0

/-- The relational side's rounded per-order total (lines 613-626). -/
def sqlite_order_total (rows : List DetailRow) : ℚ := _round_2 (order_total rows)

/-- The store side's rounded per-order total (lines 629-644); the store
enumerates its per-order index in no particular order. -/
def redis_order_total (rows : List DetailRow) : ℚ := _round_2 (order_total rows)

/-- str(Decimal) on a value quantized to two places, as emitted in the report
document (lines 648-658). -/
def decimal2_str (q : ℚ) : String :=
  let cents : Int := ⌊q * 100⌋
  let sign := if cents < 0 then "-" else ""
  let a := cents.natAbs
  sign ++ toString (a / 100) ++ "." ++ (if a % 100 < 10 then "0" else "") ++ toString (a % 100)

/-- The fold is the sum of the per-row products. -/
theorem order_total_eq_sum (rows : List DetailRow) :
    order_total rows =
      (rows.map fun rw => rw.unitPrice * rw.quantity * (1 - rw.discount)).sum := by
  have key : ∀ (l : List DetailRow) (a : ℚ),
      l.foldl (fun t rw => t + rw.unitPrice * rw.quantity * (1 - rw.discount)) a =
        a + (l.map fun rw => rw.unitPrice * rw.quantity * (1 - rw.discount)).sum := by
    intro l
    induction l with
    | nil => intro a; simp
    | cons r rest ih =>
      intro a
      simp only [List.foldl_cons, List.map_cons, List.sum_cons, ih]
      ring
  simpa using key rows 0

/-- 19.995 x 3 x (1 - 0) rounds half-up to 59.99. -/
theorem sample_total_eq : sqlite_order_total [⟨19995/1000, 3, 0⟩] = 5999/100 := by
  unfold sqlite_order_total _round_2
  rw [order_total_eq_sum]
  norm_num

/-- The quantized value renders as the string "59.99". -/
theorem sample_str_eq : decimal2_str (5999/100) = "59.99" := by
  unfold decimal2_str
  rw [show (⌊(5999 : ℚ)/100 * 100⌋ : ℤ) = 5999 by norm_num]
  decide

/-- C5: each side's per-order total is rounded to 2 decimals with decimal
round-half-up before comparison; unit price 19.995, quantity 3, discount 0
yields the string "59.99" (not "59.98") on both the relational and the store
side, and the two sides produce identical strings for identical rows (in any
enumeration order). -/
theorem C5_rounding_half_up :
    (decimal2_str (sqlite_order_total [⟨19995/1000, 3, 0⟩]) = "59.99" ∧
     decimal2_str (redis_order_total [⟨19995/1000, 3, 0⟩]) = "59.99" ∧
     ¬ decimal2_str (sqlite_order_total [⟨19995/1000, 3, 0⟩]) = "59.98") ∧
    (∀ rows rows' : List DetailRow, rows.Perm rows' →
      decimal2_str (sqlite_order_total rows) = decimal2_str (redis_order_total rows')) := by
  have hgen : ∀ rows rows' : List DetailRow, rows.Perm rows' →
      decimal2_str (sqlite_order_total rows) = decimal2_str (redis_order_total rows') := by
    intro rows rows2 hperm
    unfold sqlite_order_total redis_order_total
    rw [order_total_eq_sum, order_total_eq_sum,
      (hperm.map fun rw => rw.unitPrice * rw.quantity * (1 - rw.discount)).sum_eq]
  have hsq : decimal2_str (sqlite_order_total [⟨19995/1000, 3, 0⟩]) = "59.99" := by
    rw [sample_total_eq, sample_str_eq]
  refine ⟨⟨hsq, ?_, ?_⟩, hgen⟩
  · rw [← hgen [⟨19995/1000, 3, 0⟩] [⟨19995/1000, 3, 0⟩] (List.Perm.refl _), hsq]
  · rw [hsq]
    decide

/-- C5 witness: both sides agree on a two-row order read in opposite orders. -/
theorem C5_rounding_half_up_witness :
    decimal2_str (sqlite_order_total [⟨1, 2, 0⟩, ⟨2, 1, 1⟩]) =
      decimal2_str (redis_order_total [⟨2, 1, 1⟩, ⟨1, 2, 0⟩]) :=
  C5_rounding_half_up.2 [⟨1, 2, 0⟩, ⟨2, 1, 1⟩] [⟨2, 1, 1⟩, ⟨1, 2, 0⟩]
    (List.Perm.swap _ _ _)

-- ### Reset: the backing key-value store, northwind_data.reset_data_ingest
-- (lines 51-72) and northwind_compare.reset_schema_meta (lines 296-326)

/-- A stored value in the flat keyspace: a string cell or a set key. -/
inductive RVal where
  | str (s : String)
  | rset (members : List String)
deriving DecidableEq

/-- The backing store, modelled as an association list over the keyspace. -/
abbrev RStore := List (String × RVal)

/-- Point read of a key. -/
def storeGet (st : RStore) (k : String) : Option RVal :=
  (st.find? fun kv => kv.1 = k).map (·.2)

/-- Redis DEL of one key. -/
def storeDel (st : RStore) (k : String) : RStore :=
  st.filter fun kv => kv.1 ≠ k

/-- Redis SMEMBERS: members of a set key; empty for absent or non-set keys. -/
def smembers (st : RStore) (k : String) : List String :=
  match storeGet st k with
  | some (RVal.rset ms) => ms
  | _ => []

/-- northwind_data_bits.data_registry_key (lines 42-44). -/
def data_registry_key (pfx : String) : String :=
  stripColons pfx ++ ":import:northwind_compare:data_bits"

/-- northwind_data.reset_data_ingest (lines 51-72): read the registry set,
delete exactly its non-empty member keys (the 500-key pipeline batches only
batch the same deletes), then delete the registry key itself. -/
def reset_data_ingest (st : RStore) (pfx : String) : RStore :=
  let reg := data_registry_key pfx
  let keys := (smembers st reg).filter (· ≠ "")
  storeDel (keys.foldl storeDel st) reg

/-- northwind_compare._schema_meta_registry_key (lines 291-293). -/
def _schema_meta_registry_key (pfx : String) : String :=
  stripColons pfx ++ ":import:northwind_compare:schema_meta"

/-- redis_bits.element_key_with_prefix (lines 31-33):
`(prefix or "er").strip(":")` then `"{...}:element:{name}"`. -/
def element_key_with_pfx (pfx name : String) : String :=
  stripColons (if pfx = "" then "er" else pfx) ++ ":element:" ++ name

/-- northwind_compare.reset_schema_meta (lines 296-326): delete the registered
element keys and the registry, then additionally wildcard-delete every key
matching `{pfx}:element:tbl:*`, `{pfx}:element:col:*` or `{pfx}:element:rel:*`
(the "safety cleanup" scan, capped at 50000 keys; the scan observes the
pre-deletion keyspace because the pipeline executes at the end). -/
def reset_schema_meta (st : RStore) (pfx : String) : Except String RStore :=
  let p := stripColons pfx
  if p = "" then Except.error "invalid namespace prefix"
  else
    let reg := _schema_meta_registry_key p
    let names := (smembers st reg).filter (· ≠ "")
    let pats := [p ++ ":element:tbl:", p ++ ":element:col:", p ++ ":element:rel:"]
    let extra := ((st.map (·.1)).filter fun k =>
        pats.any fun pat => pat.data.isPrefixOf k.data).take 50000
    Except.ok
      (extra.foldl storeDel
        (storeDel ((names.map (element_key_with_pfx p)).foldl storeDel st) reg))

/-- Deleting another key preserves a read. -/
theorem storeGet_storeDel_ne (st : RStore) (k k' : String) (h : ¬ k = k') :
    storeGet (storeDel st k') k = storeGet st k := by
  induction st with
  | nil => rfl
  | cons kv rest ih =>
    by_cases hk : kv.1 = k'
    · have : storeDel (kv :: rest) k' = storeDel rest k' := by
        simp [storeDel, hk]
      rw [this, ih]
      have hne : ¬ kv.1 = k := fun hkk => h (hkk ▸ hk)
      simp [storeGet, List.find?, hne]
    · have : storeDel (kv :: rest) k' = kv :: storeDel rest k' := by
        simp [storeDel, hk]
      rw [this]
      by_cases hkk : kv.1 = k
      · simp [storeGet, List.find?, hkk]
      · simpa [storeGet, List.find?, hkk] using ih

/-- Deleting a batch of other keys preserves a read. -/
theorem storeGet_foldl_del (ks : List String) (st : RStore) (k : String)
    (h : ¬ k ∈ ks) :
    storeGet (ks.foldl storeDel st) k = storeGet st k := by
  induction ks generalizing st with
  | nil => rfl
  | cons k' rest ih =>
    have h1 : ¬ k = k' := fun he => h (he ▸ List.mem_cons_self _ _)
    have h2 : ¬ k ∈ rest := fun he => h (List.mem_cons_of_mem _ he)
    rw [List.foldl_cons, ih (storeDel st k') h2, storeGet_storeDel_ne st k k' h1]

/-- C2 counterexample: a pre-seeded key "er:element:tbl:Zzz" matching the
element key pattern but never registered (the registry is absent) is deleted
by reset_schema_meta's wildcard safety cleanup, refuting the claim that reset
never uses prefix-wildcard key-pattern deletion and leaves such keys
untouched. -/
theorem C2_counterexample :
    reset_schema_meta [("er:element:tbl:Zzz", RVal.str "unrelated")] "er" = Except.ok [] ∧
    storeGet [("er:element:tbl:Zzz", RVal.str "unrelated")] "er:element:tbl:Zzz" =
      some (RVal.str "unrelated") ∧
    ¬ "er:element:tbl:Zzz" ∈ smembers [("er:element:tbl:Zzz", RVal.str "unrelated")]
        (_schema_meta_registry_key "er") := by
  refine ⟨by rfl, by decide, by decide⟩

/-- C2 (amended): the data reset deletes exactly the registry-recorded keys
plus the registry key and preserves every other key; the schema-meta reset
preserves every key that is not a registered element key, not the registry
key, and does not match one of the three `{pfx}:element:...` wildcard cleanup
patterns. -/
theorem C2_reset_frame (st : RStore) (pfx : String) (k : String) :
    (¬ k ∈ smembers st (data_registry_key pfx) → ¬ k = data_registry_key pfx →
      storeGet (reset_data_ingest st pfx) k = storeGet st k) ∧
    (∀ st', reset_schema_meta st pfx = Except.ok st' →
      (∀ n ∈ smembers st (_schema_meta_registry_key (stripColons pfx)),
        ¬ k = element_key_with_pfx (stripColons pfx) n) →
      ¬ k = _schema_meta_registry_key (stripColons pfx) →
      ¬ ((stripColons pfx ++ ":element:tbl:").data.isPrefixOf k.data) →
      ¬ ((stripColons pfx ++ ":element:col:").data.isPrefixOf k.data) →
      ¬ ((stripColons pfx ++ ":element:rel:").data.isPrefixOf k.data) →
      storeGet st' k = storeGet st k) := by
  constructor
  · intro hmem hreg
    unfold reset_data_ingest
    rw [storeGet_storeDel_ne _ _ _ hreg]
    refine storeGet_foldl_del _ _ _ ?_
    intro hin
    exact hmem (List.mem_filter.mp hin).1
  · intro st' hres hnames hreg htbl hcol hrel
    unfold reset_schema_meta at hres
    by_cases hp : stripColons pfx = ""
    · rw [if_pos hp] at hres
      cases hres
    · rw [if_neg hp] at hres
      injection hres with hres
      subst hres
      rw [storeGet_foldl_del _ _ _ ?hextra, storeGet_storeDel_ne _ _ _ hreg,
        storeGet_foldl_del _ _ _ ?hnames]
      case hextra =>
        intro hin
        have hin' := (List.mem_filter.mp (List.mem_of_mem_take hin)).2
        rcases List.any_eq_true.mp hin' with ⟨pat, hpat, hmatch⟩
        simp only [List.mem_cons, List.not_mem_nil, or_false] at hpat
        rcases hpat with rfl | rfl | rfl
        · exact htbl hmatch
        · exact hcol hmatch
        · exact hrel hmatch
      case hnames =>
        intro hin
        rcases List.mem_map.mp hin with ⟨n, hn, hkn⟩
        exact hnames n (List.mem_filter.mp hn).1 hkn.symm

/-- C2 witness: an unrelated key sharing the prefix survives both resets. -/
theorem C2_reset_frame_witness :
    (storeGet
        (reset_data_ingest
          [("er:unrelated:key", RVal.str "v"), ("er:data:Customers:1", RVal.str "3")] "er")
        "er:unrelated:key" =
      storeGet [("er:unrelated:key", RVal.str "v"), ("er:data:Customers:1", RVal.str "3")]
        "er:unrelated:key") ∧
    (storeGet [("er:unrelated:key", RVal.str "v"), ("er:data:Customers:1", RVal.str "3")]
        "er:unrelated:key" =
      storeGet [("er:unrelated:key", RVal.str "v"), ("er:data:Customers:1", RVal.str "3")]
        "er:unrelated:key") :=
  ⟨(C2_reset_frame
      [("er:unrelated:key", RVal.str "v"), ("er:data:Customers:1", RVal.str "3")]
      "er" "er:unrelated:key").1 (by decide) (by decide),
   (C2_reset_frame
      [("er:unrelated:key", RVal.str "v"), ("er:data:Customers:1", RVal.str "3")]
      "er" "er:unrelated:key").2
     [("er:unrelated:key", RVal.str "v"), ("er:data:Customers:1", RVal.str "3")]
     (by rfl) (by decide) (by decide) (by decide) (by decide) (by decide)⟩
